import Mathlib

/-!
Shallow embedding of the Coconut threshold-credential core from
src/signature.rs (crate coconut-rust), together with proofs of the
specification claims about it.

Modelling conventions.

The pairing library (amcl_wrapper) is abstracted: the scalar field Fr is an
arbitrary field, the source groups G1 and G2 are additive commutative groups
with an Fr-module (scalar multiplication) structure, and the target group TG
is only required to carry a multiplication and a one.  Multi-scalar
multiplication (both the constant-time and the variable-time entry points
compute the same group element) is the function msm below.

Randomness sampled inside a Rust function (FieldElement::random) is passed to
the corresponding Lean function as an explicit argument; the hash-to-G1 of a
serialized commitment (SignatureGroup::from_msg_hash(&c.to_bytes())) is
passed as an explicit function H : G1 -> G1; the pairing is passed as an
explicit function e : G1 -> G2 -> TG.

A Rust function that can panic (assert!, assert_eq!, out-of-bounds indexing)
is modelled with the PanicOr result type below; a function returning
Result<bool, CoconutError> that can additionally panic is modelled with
VerifyResult.
-/

namespace Coconut

/-- Result of a Rust function that either panics (failed assert or
out-of-bounds index) or returns a value. -/
inductive PanicOr (α : Type) where
  | panicked : PanicOr α
  | ok : α → PanicOr α
deriving DecidableEq

/-- Result of a Rust function returning Result of bool that can also panic:
a panic, an error value, or an Ok value. -/
inductive VerifyResult (α : Type) where
  | panicked : VerifyResult α
  | error : VerifyResult α
  | ok : α → VerifyResult α
deriving DecidableEq

/-- Multi-scalar multiplication: given bases and exponents, the sum of
exps i • bases i (multi_scalar_mul_const_time and multi_scalar_mul_var_time
of amcl_wrapper compute this same element). -/
def msm {Fr G : Type} [AddCommMonoid G] [SMul Fr G] (bases : List G) (exps : List Fr) : G :=
  (List.zipWith (fun b e => e • b) bases exps).sum

/-- Shared parameters, struct Params of src/signature.rs: generators g1, g2
and one G1 element per message. -/
structure Params (G1 G2 : Type) where
  g1 : G1
  g2 : G2
  h : List G1
deriving DecidableEq

/-- One signer's secret key share, struct Sigkey of src/signature.rs. -/
structure Sigkey (Fr : Type) where
  x : Fr
  y : List Fr
deriving DecidableEq

/-- One signer's public verification key share, struct Verkey of
src/signature.rs. -/
structure Verkey (G2 : Type) where
  X_tilde : G2
  Y_tilde : List G2
deriving DecidableEq

/-- A blind-signature request, struct SignatureRequest of src/signature.rs. -/
structure SignatureRequest (Fr G1 : Type) where
  known_messages : List Fr
  commitment : G1
  ciphertexts : List (G1 × G1)
deriving DecidableEq

/-- A signer's blinded signature, struct BlindSignature of src/signature.rs. -/
structure BlindSignature (G1 : Type) where
  h : G1
  blinded : G1 × G1
deriving DecidableEq

/-- An (unblinded or aggregated) signature, struct Signature of
src/signature.rs. -/
structure Signature (G1 : Type) where
  sigma_1 : G1
  sigma_2 : G1
deriving DecidableEq

/-- A single Schnorr proof, the ProofSignatureGroup type produced by the
impl_PoK_VC macro instantiation in src/signature.rs: the prover's round-one
commitment and the response vector. -/
structure ProofSignatureGroup (Fr G1 : Type) where
  random_commitment : G1
  responses : List Fr
deriving DecidableEq

/-- The composite proof for a signature request, struct SignatureRequestProof
of src/signature.rs. -/
structure SignatureRequestProof (Fr G1 : Type) where
  proof_elgamal_sk : ProofSignatureGroup Fr G1
  proof_commitment : ProofSignatureGroup Fr G1
  proof_ciphertexts : List (ProofSignatureGroup Fr G1 × ProofSignatureGroup Fr G1)
deriving DecidableEq

/-- Modelled from the spec: Polynomial::lagrange_basis_at_0 lives in the
crate's sss module, which is not among the provided sources.  Spec section
4.2: for a signer id j and a set S of ids, return the product over k in S,
k ≠ j, of (−k)·(j−k)⁻¹. -/
def Polynomial.lagrange_basis_at_0 (Fr : Type) [Field Fr] (S : Finset ℕ) (j : ℕ) : Fr :=
  ∏ k in S.erase j, (-(k : Fr)) * ((j : Fr) - (k : Fr))⁻¹


/-! Source functions, translated from src/signature.rs. -/

/-- PrepareBlindSign, SignatureRequest::new (src/signature.rs lines 92-153).
The randomness sampled inside the Rust function is passed explicitly: r is
the commitment randomness, and ks i is the ElGamal randomness sampled for
hidden message i; H is the hash-to-G1 applied to the serialized commitment.
The macro elgamal_encrypt!(g1, pk, msg) of amcl_wrapper returns
(g1·k, pk·k + msg, k) for fresh randomness k (here the message encrypted for
hidden index i is h·m_i).  The two leading assert statements are modelled by
the panicked case. -/
def SignatureRequest.new {Fr G1 G2 : Type} [Field Fr] [AddCommGroup G1] [Module Fr G1]
    (H : G1 → G1) (messages : List Fr) (count_hidden : ℕ) (elgamal_pubkey : G1)
    (params : Params G1 G2) (r : Fr) (ks : ℕ → Fr) :
    PanicOr (SignatureRequest Fr G1 × List Fr) :=
  if count_hidden ≤ messages.length ∧ messages.length = params.h.length then
    let bases := params.h.take count_hidden ++ [params.g1]
    let exponents := messages.take count_hidden ++ [r]
    let commitment := msm bases exponents
    let h := H commitment
    let ciphertexts := (List.range count_hidden).map (fun i =>
      (ks i • params.g1, ks i • elgamal_pubkey + messages.getD i 0 • h))
    .ok ({ known_messages := messages.drop count_hidden
           commitment := commitment
           ciphertexts := ciphertexts },
         r :: (List.range count_hidden).map ks)
  else .panicked

/-- BlindSign, Signature::new_blinded (src/signature.rs lines 321-369).
H is the hash-to-G1 of the serialized commitment; h is recomputed from the
request's commitment.  The assert on lengths is modelled by the panicked
case. -/
def Signature.new_blinded {Fr G1 : Type} [Field Fr] [AddCommGroup G1] [Module Fr G1]
    (H : G1 → G1) (sig_request : SignatureRequest Fr G1) (sigkey : Sigkey Fr) :
    PanicOr (BlindSignature G1) :=
  if sig_request.ciphertexts.length + sig_request.known_messages.length = sigkey.y.length then
    let hidden_msg_count := sig_request.ciphertexts.length
    let h := H sig_request.commitment
    let c_tilde_1_bases := sig_request.ciphertexts.map Prod.fst
    let c_tilde_1_exps := sigkey.y.take hidden_msg_count
    let exp := sigkey.x +
      (List.zipWith (fun a b => a * b) (sigkey.y.drop hidden_msg_count)
        sig_request.known_messages).sum
    let c_tilde_2_bases := sig_request.ciphertexts.map Prod.snd ++ [h]
    let c_tilde_2_exps := sigkey.y.take hidden_msg_count ++ [exp]
    .ok { h := h
          blinded := (msm c_tilde_1_bases c_tilde_1_exps, msm c_tilde_2_bases c_tilde_2_exps) }
  else .panicked

/-- Unblind, Signature::new_unblinded (src/signature.rs lines 372-379). -/
def Signature.new_unblinded {Fr G1 : Type} [Field Fr] [AddCommGroup G1] [Module Fr G1]
    (sig : BlindSignature G1) (elgamal_sk : Fr) : Signature G1 :=
  let a_sk := elgamal_sk • sig.blinded.1
  { sigma_1 := sig.h, sigma_2 := sig.blinded.2 - a_sk }

/-- AggCred, Signature::aggregate (src/signature.rs lines 382-404).  The
assert on the threshold is modelled by the panicked case, as is the indexing
sigs[0] on an empty vector; the HashSet of the first threshold signer ids
becomes a Finset. -/
def Signature.aggregate (Fr : Type) [Field Fr] {G1 : Type} [AddCommGroup G1] [Module Fr G1]
    (threshold : ℕ) (sigs : List (ℕ × Signature G1)) : PanicOr (Signature G1) :=
  if threshold ≤ sigs.length then
    match sigs with
    | [] => .panicked
    | s0 :: _ =>
      let taken := sigs.take threshold
      let signer_ids := (taken.map Prod.fst).toFinset
      .ok { sigma_1 := s0.2.sigma_1
            sigma_2 := msm (taken.map (fun p => p.2.sigma_2))
              (taken.map (fun p => Polynomial.lagrange_basis_at_0 Fr signer_ids p.1)) }
  else .panicked

/-- Signature::verify (src/signature.rs lines 407-423).  The pairing is the
explicit argument e; ate_2_pairing of the crate root (not among the provided
sources) is modelled from the spec, section 4.1: the two-pairing evaluator
returning e(P1,Q1)·e(P2,Q2).  The assert on lengths is modelled by the
panicked case. -/
def Signature.verify {Fr G1 G2 TG : Type} [Field Fr] [AddCommGroup G1] [Module Fr G1]
    [AddCommGroup G2] [Module Fr G2] [DecidableEq G1] [Mul TG] [One TG] [DecidableEq TG]
    (e : G1 → G2 → TG) (sig : Signature G1) (messages : List Fr) (vk : Verkey G2)
    (params : Params G1 G2) : PanicOr Bool :=
  if messages.length = vk.Y_tilde.length then
    if sig.sigma_1 = 0 ∨ sig.sigma_2 = 0 then .ok false
    else
      let Y_m := vk.X_tilde + msm vk.Y_tilde messages
      .ok (decide (e sig.sigma_1 Y_m * e (-sig.sigma_2) params.g2 = 1))
  else .panicked

/-- Verkey::aggregate (src/signature.rs lines 428-471).  The asserts (on the
threshold, and comparing the Y_tilde length of every provided key with the
first key's) and the indexing keys[0] are modelled by the panicked case. -/
def Verkey.aggregate (Fr : Type) [Field Fr] {G2 : Type} [AddCommGroup G2] [Module Fr G2]
    (threshold : ℕ) (keys : List (ℕ × Verkey G2)) : PanicOr (Verkey G2) :=
  if threshold ≤ keys.length then
    match keys with
    | [] => .panicked
    | k0 :: rest =>
      let q := k0.2.Y_tilde.length
      if ∀ p ∈ rest, p.2.Y_tilde.length = q then
        let taken := (k0 :: rest).take threshold
        let signer_ids := (taken.map Prod.fst).toFinset
        let l := fun (p : ℕ × Verkey G2) => Polynomial.lagrange_basis_at_0 Fr signer_ids p.1
        .ok { X_tilde := msm (taken.map (fun p => p.2.X_tilde)) (taken.map l)
              Y_tilde := (List.range q).map (fun j =>
                msm (taken.map (fun p => p.2.Y_tilde.getD j 0)) (taken.map l)) }
      else .panicked
  else .panicked

/-- Modelled from the spec: the Schnorr verifier generated by the
impl_PoK_VC macro instantiation (the macro comes from the external ps_sig
crate and is not among the provided sources).  Spec section 4.4.2: rebuild
the round-one commitment as the sum of base_j · s_j minus stmt · c and
compare it with the transmitted one; a base/response length mismatch is an
error. -/
def ProofSignatureGroup.verify {Fr G1 : Type} [Field Fr] [AddCommGroup G1] [Module Fr G1]
    [DecidableEq G1] (pr : ProofSignatureGroup Fr G1) (bases : List G1) (stmt : G1)
    (challenge : Fr) : Except Unit Bool :=
  if bases.length = pr.responses.length then
    .ok (decide (msm bases pr.responses - challenge • stmt = pr.random_commitment))
  else .error ()

/-- The per-ciphertext loop of SignatureRequestProof::verify
(src/signature.rs lines 302-314), recursing over the remaining
(ciphertext proof pair, ciphertext) pairs with the running index i.  The
indexing proof_2.responses[1] and proof_commitment.responses[i] (the list
comm_responses here) is modelled by the panicked case when out of bounds. -/
def verify_ciphertexts {Fr G1 : Type} [Field Fr] [AddCommGroup G1] [Module Fr G1]
    [DecidableEq Fr] [DecidableEq G1]
    (g1 elgamal_pk hG : G1) (comm_responses : List Fr) (challenge : Fr) :
    List ((ProofSignatureGroup Fr G1 × ProofSignatureGroup Fr G1) × (G1 × G1)) → ℕ →
      VerifyResult Bool
  | [], _ => .ok true
  | (pp, ct) :: rest, i =>
    if 2 ≤ pp.2.responses.length ∧ i < comm_responses.length then
      if pp.2.responses.getD 1 0 ≠ comm_responses.getD i 0 then .ok false
      else
        match ProofSignatureGroup.verify pp.1 [g1] ct.1 challenge with
        | .error _ => .error
        | .ok b1 =>
          if b1 = false then .ok false
          else
            match ProofSignatureGroup.verify pp.2 [elgamal_pk, hG] ct.2 challenge with
            | .error _ => .error
            | .ok b2 =>
              if b2 = false then .ok false
              else verify_ciphertexts g1 elgamal_pk hG comm_responses challenge rest (i + 1)
    else .panicked

/-- SignatureRequestProof::verify (src/signature.rs lines 266-316).  The two
leading assert_eq statements on shapes are modelled by the panicked case; an
Err propagated by the question-mark operator from an inner Schnorr verify is
the error case; H is the hash-to-G1 of the serialized commitment. -/
def SignatureRequestProof.verify {Fr G1 G2 : Type} [Field Fr] [AddCommGroup G1]
    [Module Fr G1] [DecidableEq Fr] [DecidableEq G1]
    (H : G1 → G1) (prf : SignatureRequestProof Fr G1) (sig_req : SignatureRequest Fr G1)
    (elgamal_pk : G1) (challenge : Fr) (params : Params G1 G2) : VerifyResult Bool :=
  if prf.proof_ciphertexts.length = sig_req.ciphertexts.length ∧
      prf.proof_commitment.responses.length = prf.proof_ciphertexts.length + 1 then
    match ProofSignatureGroup.verify prf.proof_elgamal_sk [params.g1] elgamal_pk challenge with
    | .error _ => .error
    | .ok b0 =>
      if b0 = false then .ok false
      else
        let bases := params.h.take sig_req.ciphertexts.length ++ [params.g1]
        match ProofSignatureGroup.verify prf.proof_commitment bases sig_req.commitment
            challenge with
        | .error _ => .error
        | .ok b1 =>
          if b1 = false then .ok false
          else
            let hG := H sig_req.commitment
            verify_ciphertexts params.g1 elgamal_pk hG prf.proof_commitment.responses
              challenge (prf.proof_ciphertexts.zip sig_req.ciphertexts) 0
  else .panicked

/-- The three verification equations the per-ciphertext loop checks for one
hidden index: the response for the hidden message inside b equals the
corresponding commitment-proof response cr, and the two Schnorr equations for
the ciphertext components. -/
abbrev cipher_ok {Fr G1 : Type} [Field Fr] [AddCommGroup G1] [Module Fr G1]
    (g1 elgamal_pk hG : G1) (challenge : Fr) (cr : Fr)
    (pp : ProofSignatureGroup Fr G1 × ProofSignatureGroup Fr G1) (ct : G1 × G1) : Prop :=
  pp.2.responses.getD 1 0 = cr ∧
  pp.1.responses.getD 0 0 • g1 - challenge • ct.1 = pp.1.random_commitment ∧
  pp.2.responses.getD 0 0 • elgamal_pk + pp.2.responses.getD 1 0 • hG - challenge • ct.2
    = pp.2.random_commitment

/-- Default element used with List.getD for lists of ciphertext proof pairs
paired with ciphertexts. -/
def proof_pair_default {Fr G1 : Type} [Zero Fr] [Zero G1] :
    (ProofSignatureGroup Fr G1 × ProofSignatureGroup Fr G1) × (G1 × G1) :=
  (({ random_commitment := 0, responses := [] },
    { random_commitment := 0, responses := [] }),
   (0, 0))

/-- The concrete instantiation used by witnesses evaluates every group at the
prime field with five elements. -/
instance fact_prime_five : Fact (Nat.Prime 5) := ⟨by norm_num⟩

section ListLemmas

/-- getD of a mapped list at an in-range index is the function applied at
that index. -/
lemma getD_map_of_lt {α β : Type} (f : α → β) (d : β) (d0 : α) :
    ∀ (l : List α) (i : ℕ), i < l.length → (l.map f).getD i d = f (l.getD i d0)
  | [], i, hi => absurd hi (by simp)
  | a :: l, 0, _ => rfl
  | a :: l, i + 1, hi => by
    simpa using getD_map_of_lt f d d0 l i (by simpa using hi)

/-- getD of a take at an index below the take bound is getD of the list. -/
lemma getD_take_of_lt {α : Type} (d : α) :
    ∀ (l : List α) (k i : ℕ), i < k → (l.take k).getD i d = l.getD i d
  | [], k, i, _ => by simp
  | a :: l, 0, i, hi => absurd hi (Nat.not_lt_zero i)
  | a :: l, k + 1, 0, _ => rfl
  | a :: l, k + 1, i + 1, hi => by
    simpa using getD_take_of_lt d l k i (Nat.lt_of_succ_lt_succ hi)

/-- getD of a zip at an in-range index is the pair of the getDs. -/
lemma getD_zip_of_lt {α β : Type} (d1 : α) (d2 : β) :
    ∀ (l1 : List α) (l2 : List β) (i : ℕ), i < l1.length → i < l2.length →
      (l1.zip l2).getD i (d1, d2) = (l1.getD i d1, l2.getD i d2)
  | [], _, i, h1, _ => absurd h1 (by simp)
  | _ :: _, [], i, _, h2 => absurd h2 (by simp)
  | a :: l1, b :: l2, 0, _, _ => rfl
  | a :: l1, b :: l2, i + 1, h1, h2 => by
    simpa using getD_zip_of_lt d1 d2 l1 l2 i (by simpa using h1) (by simpa using h2)

/-- getD of a drop is getD of the list at the shifted index. -/
lemma getD_drop {α : Type} (d : α) :
    ∀ (l : List α) (k i : ℕ), (l.drop k).getD i d = l.getD (k + i) d
  | [], k, i => by simp
  | a :: l, 0, i => by simp
  | a :: l, k + 1, i => by
    have := getD_drop d l k i
    simp [Nat.succ_add, this]

/-- The sum of a zipWith over two lists of the same length, written as a sum
over the index range. -/
lemma sum_zipWith_eq_sum_range {α β M : Type} [AddCommMonoid M] (f : α → β → M)
    (d1 : α) (d2 : β) :
    ∀ (l1 : List α) (l2 : List β), l1.length = l2.length →
      (List.zipWith f l1 l2).sum =
        ∑ i in Finset.range l1.length, f (l1.getD i d1) (l2.getD i d2)
  | [], [], _ => by simp
  | [], b :: l2, h => by simp at h
  | a :: l1, [], h => by simp at h
  | a :: l1, b :: l2, h => by
    rw [List.zipWith_cons_cons, List.sum_cons, List.length_cons, Finset.sum_range_succ']
    simp only [List.getD_cons_succ, List.getD_cons_zero]
    rw [sum_zipWith_eq_sum_range f d1 d2 l1 l2 (by simpa using h)]
    exact add_comm _ _

/-- msm over equal-length lists written as a sum over the index range. -/
lemma msm_eq_sum_range {Fr G : Type} [AddCommMonoid G] [SMul Fr G]
    (bases : List G) (exps : List Fr) (h : bases.length = exps.length)
    (d : G) (e0 : Fr) :
    msm bases exps = ∑ i in Finset.range bases.length, exps.getD i e0 • bases.getD i d :=
  sum_zipWith_eq_sum_range (fun b e => e • b) d e0 bases exps h

/-- msm with one extra base/exponent appended to equal-length lists. -/
lemma msm_append_singleton {Fr G : Type} [AddCommMonoid G] [SMul Fr G] (b : G) (e : Fr) :
    ∀ (bases : List G) (exps : List Fr), bases.length = exps.length →
      msm (bases ++ [b]) (exps ++ [e]) = msm bases exps + e • b
  | [], [], _ => by simp [msm]
  | [], x :: l, h => by simp at h
  | x :: l, [], h => by simp at h
  | x :: bases, y :: exps, h => by
    simp only [List.cons_append, msm, List.zipWith_cons_cons, List.sum_cons]
    have ih := msm_append_singleton b e bases exps (by simpa using h)
    simp only [msm] at ih
    rw [ih, add_assoc]

/-- Splitting a bounded forall over n + 1 into the zero case and a shifted
bounded forall. -/
lemma forall_lt_succ_split {n : ℕ} {P : ℕ → Prop} :
    (∀ j < n + 1, P j) ↔ P 0 ∧ ∀ j < n, P (j + 1) := by
  constructor
  · intro h
    exact ⟨h 0 (Nat.succ_pos n), fun j hj => h (j + 1) (Nat.succ_lt_succ hj)⟩
  · rintro ⟨h0, h⟩ j hj
    cases j with
    | zero => exact h0
    | succ j => exact h j (Nat.lt_of_succ_lt_succ hj)

end ListLemmas

/-- A Schnorr verify over a single base with a single response computes the
rebuilt commitment s · b − c · stmt and compares. -/
lemma pok_verify_single {Fr G1 : Type} [Field Fr] [AddCommGroup G1] [Module Fr G1]
    [DecidableEq G1] (pr : ProofSignatureGroup Fr G1) (b stmt : G1) (c : Fr)
    (h1 : pr.responses.length = 1) :
    ProofSignatureGroup.verify pr [b] stmt c =
      .ok (decide (pr.responses.getD 0 0 • b - c • stmt = pr.random_commitment)) := by
  obtain ⟨s, hs⟩ := List.length_eq_one.mp h1
  unfold ProofSignatureGroup.verify
  rw [if_pos (by simp [h1])]
  rw [hs]
  simp [msm]

/-- A Schnorr verify over two bases with two responses computes the rebuilt
commitment s0 · b1 + s1 · b2 − c · stmt and compares. -/
lemma pok_verify_pair {Fr G1 : Type} [Field Fr] [AddCommGroup G1] [Module Fr G1]
    [DecidableEq G1] (pr : ProofSignatureGroup Fr G1) (b1 b2 stmt : G1) (c : Fr)
    (h2 : pr.responses.length = 2) :
    ProofSignatureGroup.verify pr [b1, b2] stmt c =
      .ok (decide (pr.responses.getD 0 0 • b1 + pr.responses.getD 1 0 • b2 - c • stmt
        = pr.random_commitment)) := by
  obtain ⟨s0, s1, hs⟩ := List.length_eq_two.mp h2
  unfold ProofSignatureGroup.verify
  rw [if_pos (by simp [h2])]
  rw [hs]
  simp [msm, add_assoc]

/-- An if on the boolean test false = false picks the then branch. -/
lemma if_bool_false {α : Type} (a b : α) : (if false = false then a else b) = a := rfl

/-- An if on the boolean test true = false picks the else branch. -/
lemma if_bool_true {α : Type} (a b : α) : (if true = false then a else b) = b := rfl

/-- The per-ciphertext loop, on well-shaped inputs, never errors or panics,
and accepts exactly when every remaining entry satisfies its three
equations. -/
lemma verify_ciphertexts_spec {Fr G1 : Type} [Field Fr] [AddCommGroup G1] [Module Fr G1]
    [DecidableEq Fr] [DecidableEq G1]
    (g1 elgamal_pk hG : G1) (cr : List Fr) (challenge : Fr) :
    ∀ (ps : List ((ProofSignatureGroup Fr G1 × ProofSignatureGroup Fr G1) × (G1 × G1)))
      (i : ℕ),
      (∀ pp ∈ ps, pp.1.1.responses.length = 1 ∧ pp.1.2.responses.length = 2) →
      i + ps.length ≤ cr.length →
      ((verify_ciphertexts g1 elgamal_pk hG cr challenge ps i = .ok true ∨
        verify_ciphertexts g1 elgamal_pk hG cr challenge ps i = .ok false) ∧
       (verify_ciphertexts g1 elgamal_pk hG cr challenge ps i = .ok true ↔
        ∀ j < ps.length,
          cipher_ok g1 elgamal_pk hG challenge (cr.getD (i + j) 0)
            (ps.getD j proof_pair_default).1 (ps.getD j proof_pair_default).2))
  | [], i, _, _ => by
    refine ⟨Or.inl rfl, ?_⟩
    simp [verify_ciphertexts]
  | ppct :: rest, i, hresp, hcr => by
    obtain ⟨hl1, hl2⟩ := hresp ppct (List.mem_cons_self _ _)
    have hi : i < cr.length := by
      simp only [List.length_cons] at hcr
      omega
    have ih := verify_ciphertexts_spec g1 elgamal_pk hG cr challenge rest (i + 1)
      (fun q hq => hresp q (List.mem_cons_of_mem _ hq))
      (by simp only [List.length_cons] at hcr; omega)
    obtain ⟨pp, ct⟩ := ppct
    have hl1' : pp.1.responses.length = 1 := hl1
    have hl2' : pp.2.responses.length = 2 := hl2
    simp only [List.length_cons]
    simp only [verify_ciphertexts]
    rw [if_pos (And.intro (by omega) hi)]
    by_cases heq : pp.2.responses.getD 1 0 = cr.getD i 0
    case neg =>
      rw [if_pos heq]
      refine ⟨Or.inr rfl, ?_⟩
      constructor
      · intro hcontra
        exact absurd hcontra (by simp)
      · intro hall
        have h0 := (hall 0 (Nat.succ_pos _)).1
        simp only [List.getD_cons_zero] at h0
        exact absurd (by simpa using h0) heq
    case pos =>
      rw [if_neg (by simpa using heq)]
      rw [pok_verify_single pp.1 g1 ct.1 challenge hl1']
      by_cases hp1 : pp.1.responses.getD 0 0 • g1 - challenge • ct.1
          = pp.1.random_commitment
      case neg =>
        simp only [decide_eq_false hp1, if_bool_false]
        refine ⟨Or.inr (by simp), ?_⟩
        constructor
        · intro hcontra
          exact absurd hcontra (by simp)
        · intro hall
          have h0 := (hall 0 (Nat.succ_pos _)).2.1
          simp only [List.getD_cons_zero] at h0
          exact absurd h0 hp1
      case pos =>
        simp only [decide_eq_true hp1, if_bool_true]
        rw [pok_verify_pair pp.2 elgamal_pk hG ct.2 challenge hl2']
        by_cases hp2 : pp.2.responses.getD 0 0 • elgamal_pk
            + pp.2.responses.getD 1 0 • hG - challenge • ct.2 = pp.2.random_commitment
        case neg =>
          simp only [decide_eq_false hp2, if_bool_false]
          refine ⟨Or.inr (by simp), ?_⟩
          constructor
          · intro hcontra
            exact absurd hcontra (by simp)
          · intro hall
            have h0 := (hall 0 (Nat.succ_pos _)).2.2
            simp only [List.getD_cons_zero] at h0
            exact absurd h0 hp2
        case pos =>
          simp only [decide_eq_true hp2, if_bool_true]
          refine ⟨ih.1, ?_⟩
          rw [ih.2, forall_lt_succ_split]
          have hc0 : cipher_ok g1 elgamal_pk hG challenge (cr.getD (i + 0) 0)
              ((((pp, ct) :: rest).getD 0 proof_pair_default)).1
              ((((pp, ct) :: rest).getD 0 proof_pair_default)).2 := by
            simp only [List.getD_cons_zero]
            exact ⟨by simpa using heq, hp1, hp2⟩
          have harith : ∀ j : ℕ, i + (j + 1) = (i + 1) + j := fun j => by omega
          constructor
          · intro hrest
            refine ⟨hc0, fun j hj => ?_⟩
            rw [List.getD_cons_succ, harith j]
            exact hrest j hj
          · rintro ⟨h0, hrest⟩ j hj
            have := hrest j hj
            rw [List.getD_cons_succ, harith j] at this
            exact this

/-- Claim C3: Signature::new_unblinded, given any BlindSignature
(h, (c_tilde_1, c_tilde_2)) and any ElGamal secret d, returns the Signature
with sigma_1 = h and sigma_2 = c_tilde_2 − c_tilde_1 · d. -/
theorem new_unblinded_spec {Fr G1 : Type} [Field Fr] [AddCommGroup G1] [Module Fr G1]
    (sig : BlindSignature G1) (d : Fr) :
    Signature.new_unblinded sig d =
      { sigma_1 := sig.h, sigma_2 := sig.blinded.2 - d • sig.blinded.1 } := rfl

/-- Claim C1: Signature::verify, given messages whose length matches the
verkey's Y_tilde, returns false whenever sigma_1 or sigma_2 is the G1
identity, and otherwise returns true exactly when
e(sigma_1, X_tilde + sum of Y_tilde_i · m_i) · e(−sigma_2, g2) is the
identity of the target group. -/
theorem verify_sig_spec {Fr G1 G2 TG : Type} [Field Fr] [AddCommGroup G1] [Module Fr G1]
    [AddCommGroup G2] [Module Fr G2] [DecidableEq G1] [Mul TG] [One TG] [DecidableEq TG]
    (e : G1 → G2 → TG) (sig : Signature G1) (messages : List Fr) (vk : Verkey G2)
    (params : Params G1 G2) (hlen : messages.length = vk.Y_tilde.length) :
    ((sig.sigma_1 = 0 ∨ sig.sigma_2 = 0) →
        Signature.verify e sig messages vk params = .ok false) ∧
    (sig.sigma_1 ≠ 0 → sig.sigma_2 ≠ 0 →
        (Signature.verify e sig messages vk params = .ok true ↔
          e sig.sigma_1 (vk.X_tilde +
              ∑ i in Finset.range messages.length,
                messages.getD i 0 • vk.Y_tilde.getD i 0) * e (-sig.sigma_2) params.g2
            = 1)) := by
  have hmsm : msm vk.Y_tilde messages =
      ∑ i in Finset.range messages.length, messages.getD i 0 • vk.Y_tilde.getD i 0 := by
    rw [msm_eq_sum_range vk.Y_tilde messages hlen.symm 0 0, hlen]
  constructor
  · intro hid
    unfold Signature.verify
    rw [if_pos hlen, if_pos hid]
  · intro h1 h2
    unfold Signature.verify
    rw [if_pos hlen, if_neg (by simp [h1, h2])]
    simp [hmsm]

/-- Witness for C1: a concrete accepting run over the field with five
elements, with the pairing taken to be multiplication. -/
theorem verify_sig_spec_witness :
    Signature.verify (fun a b : ZMod 5 => a * b)
      ({ sigma_1 := 1, sigma_2 := 2 } : Signature (ZMod 5)) ([] : List (ZMod 5))
      ({ X_tilde := 2, Y_tilde := [] } : Verkey (ZMod 5))
      ({ g1 := 0, g2 := 1, h := [] } : Params (ZMod 5) (ZMod 5)) = .ok true :=
  ((verify_sig_spec (fun a b : ZMod 5 => a * b)
      ({ sigma_1 := 1, sigma_2 := 2 } : Signature (ZMod 5)) ([] : List (ZMod 5))
      ({ X_tilde := 2, Y_tilde := [] } : Verkey (ZMod 5))
      ({ g1 := 0, g2 := 1, h := [] } : Params (ZMod 5) (ZMod 5)) rfl).2
    (by decide) (by decide)).mpr (by decide)

/-- Claim C2: Signature::new_blinded, for a request with k ciphertexts and
L − k known messages and a Sigkey (x, y) with k + (L − k) = |y|, recomputes
h = H(commitment) from the request's commitment and outputs the blinded pair
c_tilde_1 = sum of y_i · a_i for i < k and
c_tilde_2 = sum of y_i · b_i for i < k plus
(x + sum of y_(k+j) · known_j) · h. -/
theorem new_blinded_spec {Fr G1 : Type} [Field Fr] [AddCommGroup G1] [Module Fr G1]
    (H : G1 → G1) (req : SignatureRequest Fr G1) (sk : Sigkey Fr)
    (hlen : req.ciphertexts.length + req.known_messages.length = sk.y.length) :
    Signature.new_blinded H req sk = .ok
      { h := H req.commitment
        blinded :=
          (∑ i in Finset.range req.ciphertexts.length,
              sk.y.getD i 0 • (req.ciphertexts.getD i (0, 0)).1,
           (∑ i in Finset.range req.ciphertexts.length,
              sk.y.getD i 0 • (req.ciphertexts.getD i (0, 0)).2) +
             (sk.x + ∑ j in Finset.range req.known_messages.length,
                 sk.y.getD (req.ciphertexts.length + j) 0 * req.known_messages.getD j 0)
               • H req.commitment) } := by
  have htk : (sk.y.take req.ciphertexts.length).length = req.ciphertexts.length := by
    simp only [List.length_take]
    omega
  have hfst : msm (req.ciphertexts.map Prod.fst) (sk.y.take req.ciphertexts.length) =
      ∑ i in Finset.range req.ciphertexts.length,
        sk.y.getD i 0 • (req.ciphertexts.getD i (0, 0)).1 := by
    rw [msm_eq_sum_range _ _ (by simp [htk]) 0 0, List.length_map]
    refine Finset.sum_congr rfl (fun i hi => ?_)
    have hi' := Finset.mem_range.mp hi
    rw [getD_take_of_lt 0 sk.y _ i hi', getD_map_of_lt Prod.fst 0 (0, 0) _ i hi']
  have hsnd : msm (req.ciphertexts.map Prod.snd) (sk.y.take req.ciphertexts.length) =
      ∑ i in Finset.range req.ciphertexts.length,
        sk.y.getD i 0 • (req.ciphertexts.getD i (0, 0)).2 := by
    rw [msm_eq_sum_range _ _ (by simp [htk]) 0 0, List.length_map]
    refine Finset.sum_congr rfl (fun i hi => ?_)
    have hi' := Finset.mem_range.mp hi
    rw [getD_take_of_lt 0 sk.y _ i hi', getD_map_of_lt Prod.snd 0 (0, 0) _ i hi']
  have hexp : (List.zipWith (fun a b => a * b) (sk.y.drop req.ciphertexts.length)
      req.known_messages).sum =
      ∑ j in Finset.range req.known_messages.length,
        sk.y.getD (req.ciphertexts.length + j) 0 * req.known_messages.getD j 0 := by
    rw [sum_zipWith_eq_sum_range _ 0 0 _ _ (by simp only [List.length_drop]; omega)]
    rw [List.length_drop]
    have hd : sk.y.length - req.ciphertexts.length = req.known_messages.length := by omega
    rw [hd]
    refine Finset.sum_congr rfl (fun j hj => ?_)
    rw [getD_drop]
  simp only [Signature.new_blinded]
  rw [if_pos hlen, msm_append_singleton _ _ _ _ (by simp [htk]), hfst, hsnd, hexp]

/-- Witness for C2: one hidden and one known message over the field with five
elements. -/
theorem new_blinded_spec_witness :
    Signature.new_blinded (fun x : ZMod 5 => x + 1)
      ({ known_messages := [3], commitment := 2, ciphertexts := [(1, 1)] } :
        SignatureRequest (ZMod 5) (ZMod 5))
      ({ x := 1, y := [1, 1] } : Sigkey (ZMod 5)) = .ok
      { h := (fun x : ZMod 5 => x + 1) 2
        blinded :=
          (∑ i in Finset.range 1,
              ([1, 1] : List (ZMod 5)).getD i 0 •
                (([(1, 1)] : List (ZMod 5 × ZMod 5)).getD i (0, 0)).1,
           (∑ i in Finset.range 1,
              ([1, 1] : List (ZMod 5)).getD i 0 •
                (([(1, 1)] : List (ZMod 5 × ZMod 5)).getD i (0, 0)).2) +
             ((1 : ZMod 5) + ∑ j in Finset.range 1,
                 ([1, 1] : List (ZMod 5)).getD (1 + j) 0 •
                   ([3] : List (ZMod 5)).getD j 0)
               • (fun x : ZMod 5 => x + 1) 2) } :=
  new_blinded_spec (fun x : ZMod 5 => x + 1)
    ({ known_messages := [3], commitment := 2, ciphertexts := [(1, 1)] } :
      SignatureRequest (ZMod 5) (ZMod 5))
    ({ x := 1, y := [1, 1] } : Sigkey (ZMod 5)) (by decide)

/-- Claim C6: SignatureRequest::new computes
commitment = (sum of h_i·m_i over hidden indices) + g1·r, derives
h = H(commitment), emits ciphertexts (g1·k_i, gamma·k_i + h·m_i) for the
hidden messages, sets known_messages to the last L − k messages, and returns
the private randomness vector r followed by the k ElGamal randomizers, in
that order, of length k + 1; the ciphertext and known-message counts add up
to L. -/
theorem sig_request_new_spec {Fr G1 G2 : Type} [Field Fr] [AddCommGroup G1] [Module Fr G1]
    (H : G1 → G1) (messages : List Fr) (count_hidden : ℕ) (elgamal_pubkey : G1)
    (params : Params G1 G2) (r : Fr) (ks : ℕ → Fr)
    (hk : count_hidden ≤ messages.length) (hL : messages.length = params.h.length) :
    SignatureRequest.new H messages count_hidden elgamal_pubkey params r ks = .ok
        ({ known_messages := messages.drop count_hidden
           commitment := (∑ i in Finset.range count_hidden,
               messages.getD i 0 • params.h.getD i 0) + r • params.g1
           ciphertexts := (List.range count_hidden).map (fun i =>
             (ks i • params.g1,
              ks i • elgamal_pubkey + messages.getD i 0 •
                H ((∑ i in Finset.range count_hidden,
                    messages.getD i 0 • params.h.getD i 0) + r • params.g1))) },
         r :: (List.range count_hidden).map ks) ∧
      (messages.drop count_hidden).length + count_hidden = params.h.length ∧
      (r :: (List.range count_hidden).map ks).length = count_hidden + 1 := by
  have hcomm : msm (params.h.take count_hidden ++ [params.g1])
      (messages.take count_hidden ++ [r]) =
      (∑ i in Finset.range count_hidden, messages.getD i 0 • params.h.getD i 0)
        + r • params.g1 := by
    rw [msm_append_singleton _ _ _ _ (by simp only [List.length_take]; omega)]
    congr 1
    rw [msm_eq_sum_range _ _ (by simp only [List.length_take]; omega) 0 0]
    rw [List.length_take, Nat.min_eq_left (by omega)]
    refine Finset.sum_congr rfl (fun i hi => ?_)
    have hi' := Finset.mem_range.mp hi
    rw [getD_take_of_lt 0 messages _ i hi', getD_take_of_lt 0 params.h _ i hi']
  refine ⟨?_, by simp only [List.length_drop]; omega, by simp⟩
  simp only [SignatureRequest.new]
  rw [if_pos ⟨hk, hL⟩, hcomm]

/-- Witness for C6: two messages, one hidden, over the field with five
elements. -/
theorem sig_request_new_spec_witness :
    SignatureRequest.new (fun x : ZMod 5 => x + x) ([1, 2] : List (ZMod 5)) 1
      (1 : ZMod 5) ({ g1 := 1, g2 := 0, h := [1, 1] } : Params (ZMod 5) (ZMod 5))
      (3 : ZMod 5) (fun _ => (4 : ZMod 5)) = .ok
        ({ known_messages := ([1, 2] : List (ZMod 5)).drop 1
           commitment := (∑ i in Finset.range 1,
               ([1, 2] : List (ZMod 5)).getD i 0 • ([1, 1] : List (ZMod 5)).getD i 0)
             + (3 : ZMod 5) • (1 : ZMod 5)
           ciphertexts := (List.range 1).map (fun i =>
             ((4 : ZMod 5) • (1 : ZMod 5),
              (4 : ZMod 5) • (1 : ZMod 5) + ([1, 2] : List (ZMod 5)).getD i 0 •
                (fun x : ZMod 5 => x + x) ((∑ i in Finset.range 1,
                    ([1, 2] : List (ZMod 5)).getD i 0 • ([1, 1] : List (ZMod 5)).getD i 0)
                  + (3 : ZMod 5) • (1 : ZMod 5)))) },
         (3 : ZMod 5) :: (List.range 1).map (fun _ => (4 : ZMod 5))) ∧
      (([1, 2] : List (ZMod 5)).drop 1).length + 1 = 2 ∧
      ((3 : ZMod 5) :: (List.range 1).map (fun _ => (4 : ZMod 5))).length = 1 + 1 :=
  sig_request_new_spec (fun x : ZMod 5 => x + x) ([1, 2] : List (ZMod 5)) 1
    (1 : ZMod 5) ({ g1 := 1, g2 := 0, h := [1, 1] } : Params (ZMod 5) (ZMod 5))
    (3 : ZMod 5) (fun _ => (4 : ZMod 5)) (by decide) (by decide)

/-- Claim C9 counterexample: aggregating an empty vector with threshold one
hits the assert and panics.  The Rust function returns a bare Signature (no
Result type), so no ThresholdNotMet error value is produced on this path. -/
theorem aggregate_threshold_cex :
    Signature.aggregate (ZMod 5) 1 ([] : List (ℕ × Signature (ZMod 5)))
      = .panicked := by
  decide

/-- Claim C9 amended: calling Signature::aggregate with fewer than threshold
entries panics via assert and produces no Signature and no error value. -/
theorem aggregate_below_threshold_panics {Fr G1 : Type} [Field Fr] [AddCommGroup G1]
    [Module Fr G1] (threshold : ℕ) (sigs : List (ℕ × Signature G1))
    (h : sigs.length < threshold) :
    Signature.aggregate Fr threshold sigs = .panicked := by
  unfold Signature.aggregate
  rw [if_neg (by omega)]

/-- Witness for the amended C9: one partial signature with threshold two. -/
theorem aggregate_below_threshold_panics_witness :
    Signature.aggregate (ZMod 5) 2
      [(1, ({ sigma_1 := 0, sigma_2 := 0 } : Signature (ZMod 5)))] = .panicked :=
  aggregate_below_threshold_panics 2
    [(1, ({ sigma_1 := 0, sigma_2 := 0 } : Signature (ZMod 5)))] (by decide)

/-- Claim C4: Signature::aggregate with threshold t and at least t pairs
uses only the first t entries, takes sigma_1 from the first entry (no check
that the other entries' sigma_1 agree), and sets sigma_2 to the sum of
l_i · sigma_2_i over the first t entries, where l_i is lagrange_basis_at_0
of the set of the first t ids at id_i. -/
theorem aggregate_sig_spec {Fr G1 : Type} [Field Fr] [AddCommGroup G1] [Module Fr G1]
    (threshold : ℕ) (sigs : List (ℕ × Signature G1))
    (hth : threshold ≤ sigs.length) (hne : sigs ≠ []) :
    Signature.aggregate Fr threshold sigs = .ok
      { sigma_1 := (sigs.getD 0 (0, { sigma_1 := 0, sigma_2 := 0 })).2.sigma_1
        sigma_2 := ∑ i in Finset.range threshold,
          Polynomial.lagrange_basis_at_0 Fr ((sigs.take threshold).map Prod.fst).toFinset
              (sigs.getD i (0, { sigma_1 := 0, sigma_2 := 0 })).1
            • (sigs.getD i (0, { sigma_1 := 0, sigma_2 := 0 })).2.sigma_2 } := by
  obtain ⟨s0, rest, rfl⟩ := List.exists_cons_of_ne_nil hne
  have htk : ((s0 :: rest).take threshold).length = threshold := by
    simp only [List.length_take]
    omega
  simp only [Signature.aggregate]
  rw [if_pos hth]
  have hmsm : msm (((s0 :: rest).take threshold).map (fun p => p.2.sigma_2))
      (((s0 :: rest).take threshold).map (fun p =>
        Polynomial.lagrange_basis_at_0 Fr
          (((s0 :: rest).take threshold).map Prod.fst).toFinset p.1)) =
      ∑ i in Finset.range threshold,
        Polynomial.lagrange_basis_at_0 Fr
            (((s0 :: rest).take threshold).map Prod.fst).toFinset
            ((s0 :: rest).getD i (0, { sigma_1 := 0, sigma_2 := 0 })).1
          • ((s0 :: rest).getD i (0, { sigma_1 := 0, sigma_2 := 0 })).2.sigma_2 := by
    rw [msm_eq_sum_range _ _ (by simp) 0 0, List.length_map, htk]
    refine Finset.sum_congr rfl (fun i hi => ?_)
    have hi' := Finset.mem_range.mp hi
    have hit : i < ((s0 :: rest).take threshold).length := by omega
    rw [getD_map_of_lt (fun p => p.2.sigma_2) 0 (0, { sigma_1 := 0, sigma_2 := 0 }) _ i hit,
      getD_map_of_lt _ 0 (0, { sigma_1 := 0, sigma_2 := 0 }) _ i hit,
      getD_take_of_lt (0, ({ sigma_1 := 0, sigma_2 := 0 } : Signature G1))
        (s0 :: rest) threshold i hi']
  rw [hmsm]
  rfl

/-- Witness for C4: two partial signatures with threshold two over the field
with five elements; the two entries carry different sigma_1 values, and the
first one is the one that is kept. -/
theorem aggregate_sig_spec_witness :
    Signature.aggregate (ZMod 5) 2
      [(1, ({ sigma_1 := 1, sigma_2 := 2 } : Signature (ZMod 5))),
       (2, ({ sigma_1 := 3, sigma_2 := 4 } : Signature (ZMod 5)))] = .ok
      { sigma_1 := (([(1, ({ sigma_1 := 1, sigma_2 := 2 } : Signature (ZMod 5))),
            (2, ({ sigma_1 := 3, sigma_2 := 4 } : Signature (ZMod 5)))].getD 0
            (0, { sigma_1 := 0, sigma_2 := 0 }))).2.sigma_1
        sigma_2 := ∑ i in Finset.range 2,
          Polynomial.lagrange_basis_at_0 (ZMod 5)
              (([(1, ({ sigma_1 := 1, sigma_2 := 2 } : Signature (ZMod 5))),
                 (2, ({ sigma_1 := 3, sigma_2 := 4 } : Signature (ZMod 5)))].take 2).map
                Prod.fst).toFinset
              (([(1, ({ sigma_1 := 1, sigma_2 := 2 } : Signature (ZMod 5))),
                 (2, ({ sigma_1 := 3, sigma_2 := 4 } : Signature (ZMod 5)))].getD i
                (0, { sigma_1 := 0, sigma_2 := 0 })).1)
            • ([(1, ({ sigma_1 := 1, sigma_2 := 2 } : Signature (ZMod 5))),
                 (2, ({ sigma_1 := 3, sigma_2 := 4 } : Signature (ZMod 5)))].getD i
                (0, { sigma_1 := 0, sigma_2 := 0 })).2.sigma_2 } :=
  aggregate_sig_spec 2
    [(1, ({ sigma_1 := 1, sigma_2 := 2 } : Signature (ZMod 5))),
     (2, ({ sigma_1 := 3, sigma_2 := 4 } : Signature (ZMod 5)))]
    (by decide) (by decide)

/-- Claim C5: Verkey::aggregate with threshold t and at least t keys, all of
Y_tilde length L, uses only the first t entries and outputs
X_tilde = sum of l_i · X_tilde_i and, for every j < L,
Y_tilde_j = sum of l_i · Y_tilde_(i,j), with l_i the lagrange_basis_at_0 of
the set of the first t ids at id_i. -/
theorem aggregate_vk_spec {Fr G2 : Type} [Field Fr] [AddCommGroup G2] [Module Fr G2]
    (threshold : ℕ) (keys : List (ℕ × Verkey G2)) (L : ℕ)
    (hth : threshold ≤ keys.length) (hne : keys ≠ [])
    (hall : ∀ p ∈ keys, p.2.Y_tilde.length = L) :
    Verkey.aggregate Fr threshold keys = .ok
      { X_tilde := ∑ i in Finset.range threshold,
          Polynomial.lagrange_basis_at_0 Fr ((keys.take threshold).map Prod.fst).toFinset
              (keys.getD i (0, { X_tilde := 0, Y_tilde := [] })).1
            • (keys.getD i (0, { X_tilde := 0, Y_tilde := [] })).2.X_tilde
        Y_tilde := (List.range L).map (fun j =>
          ∑ i in Finset.range threshold,
            Polynomial.lagrange_basis_at_0 Fr ((keys.take threshold).map Prod.fst).toFinset
                (keys.getD i (0, { X_tilde := 0, Y_tilde := [] })).1
              • (keys.getD i (0, { X_tilde := 0, Y_tilde := [] })).2.Y_tilde.getD j 0) } := by
  obtain ⟨k0, rest, rfl⟩ := List.exists_cons_of_ne_nil hne
  have hq : k0.2.Y_tilde.length = L := hall k0 (List.mem_cons_self k0 rest)
  have hrest : ∀ p ∈ rest, p.2.Y_tilde.length = k0.2.Y_tilde.length := by
    intro p hp
    rw [hall p (List.mem_cons_of_mem k0 hp), hq]
  have htk : ((k0 :: rest).take threshold).length = threshold := by
    simp only [List.length_take]
    omega
  have hgen : ∀ (f : ℕ × Verkey G2 → G2),
      msm (((k0 :: rest).take threshold).map f)
        (((k0 :: rest).take threshold).map (fun p =>
          Polynomial.lagrange_basis_at_0 Fr
            (((k0 :: rest).take threshold).map Prod.fst).toFinset p.1)) =
      ∑ i in Finset.range threshold,
        Polynomial.lagrange_basis_at_0 Fr
            (((k0 :: rest).take threshold).map Prod.fst).toFinset
            ((k0 :: rest).getD i (0, { X_tilde := 0, Y_tilde := [] })).1
          • f ((k0 :: rest).getD i (0, { X_tilde := 0, Y_tilde := [] })) := by
    intro f
    rw [msm_eq_sum_range _ _ (by simp) 0 0, List.length_map, htk]
    refine Finset.sum_congr rfl (fun i hi => ?_)
    have hi' := Finset.mem_range.mp hi
    have hit : i < ((k0 :: rest).take threshold).length := by omega
    rw [getD_map_of_lt f 0 (0, { X_tilde := 0, Y_tilde := [] }) _ i hit,
      getD_map_of_lt _ 0 (0, { X_tilde := 0, Y_tilde := [] }) _ i hit,
      getD_take_of_lt (0, ({ X_tilde := 0, Y_tilde := [] } : Verkey G2))
        (k0 :: rest) threshold i hi']
  simp only [Verkey.aggregate]
  rw [if_pos hth, if_pos hrest, hq]
  rw [hgen (fun p => p.2.X_tilde)]
  simp only [PanicOr.ok.injEq, Verkey.mk.injEq]
  refine ⟨trivial, ?_⟩
  exact congrArg (fun fn => (List.range L).map fn)
    (funext (fun j => hgen (fun p => p.2.Y_tilde.getD j 0)))

/-- Witness for C5: two verkeys with threshold two and one message over the
field with five elements. -/
theorem aggregate_vk_spec_witness :
    Verkey.aggregate (ZMod 5) 2
      [(1, ({ X_tilde := 1, Y_tilde := [2] } : Verkey (ZMod 5))),
       (2, ({ X_tilde := 3, Y_tilde := [4] } : Verkey (ZMod 5)))] = .ok
      { X_tilde := ∑ i in Finset.range 2,
          Polynomial.lagrange_basis_at_0 (ZMod 5)
              (([(1, ({ X_tilde := 1, Y_tilde := [2] } : Verkey (ZMod 5))),
                 (2, ({ X_tilde := 3, Y_tilde := [4] } : Verkey (ZMod 5)))].take 2).map
                Prod.fst).toFinset
              (([(1, ({ X_tilde := 1, Y_tilde := [2] } : Verkey (ZMod 5))),
                 (2, ({ X_tilde := 3, Y_tilde := [4] } : Verkey (ZMod 5)))].getD i
                (0, { X_tilde := 0, Y_tilde := [] })).1)
            • ([(1, ({ X_tilde := 1, Y_tilde := [2] } : Verkey (ZMod 5))),
                (2, ({ X_tilde := 3, Y_tilde := [4] } : Verkey (ZMod 5)))].getD i
                (0, { X_tilde := 0, Y_tilde := [] })).2.X_tilde
        Y_tilde := (List.range 1).map (fun j =>
          ∑ i in Finset.range 2,
            Polynomial.lagrange_basis_at_0 (ZMod 5)
                (([(1, ({ X_tilde := 1, Y_tilde := [2] } : Verkey (ZMod 5))),
                   (2, ({ X_tilde := 3, Y_tilde := [4] } : Verkey (ZMod 5)))].take 2).map
                  Prod.fst).toFinset
                (([(1, ({ X_tilde := 1, Y_tilde := [2] } : Verkey (ZMod 5))),
                   (2, ({ X_tilde := 3, Y_tilde := [4] } : Verkey (ZMod 5)))].getD i
                  (0, { X_tilde := 0, Y_tilde := [] })).1)
              • ([(1, ({ X_tilde := 1, Y_tilde := [2] } : Verkey (ZMod 5))),
                  (2, ({ X_tilde := 3, Y_tilde := [4] } : Verkey (ZMod 5)))].getD i
                  (0, { X_tilde := 0, Y_tilde := [] })).2.Y_tilde.getD j 0) } :=
  aggregate_vk_spec 2
    [(1, ({ X_tilde := 1, Y_tilde := [2] } : Verkey (ZMod 5))),
     (2, ({ X_tilde := 3, Y_tilde := [4] } : Verkey (ZMod 5)))] 1
    (by decide) (by decide) (by decide)

/-- Claim C10: Verkey::aggregate compares the Y_tilde length of every
provided key, including the unused entries beyond the first threshold, with
the first key's, and panics exactly when some entry disagrees; no comparison
against the scheme's message count is ever made (the function receives no
Params). -/
theorem aggregate_vk_checks_all {Fr G2 : Type} [Field Fr] [AddCommGroup G2] [Module Fr G2]
    (threshold : ℕ) (keys : List (ℕ × Verkey G2))
    (hth : threshold ≤ keys.length) (hne : keys ≠ []) :
    (Verkey.aggregate Fr threshold keys = .panicked ↔
      ∃ p ∈ keys, p.2.Y_tilde.length ≠
        (keys.getD 0 (0, { X_tilde := 0, Y_tilde := [] })).2.Y_tilde.length) := by
  obtain ⟨k0, rest, rfl⟩ := List.exists_cons_of_ne_nil hne
  simp only [Verkey.aggregate]
  rw [if_pos hth]
  simp only [List.getD_cons_zero]
  by_cases hall : ∀ p ∈ rest, p.2.Y_tilde.length = k0.2.Y_tilde.length
  · rw [if_pos hall]
    constructor
    · intro hcontra
      exact absurd hcontra (by simp)
    · rintro ⟨p, hp, hpne⟩
      rcases List.mem_cons.mp hp with h0 | hmem
      · exact absurd rfl (h0 ▸ hpne)
      · exact absurd (hall p hmem) hpne
  · rw [if_neg hall]
    constructor
    · intro _
      push_neg at hall
      obtain ⟨p, hp, hpne⟩ := hall
      exact ⟨p, List.mem_cons_of_mem k0 hp, hpne⟩
    · intro _
      rfl

/-- Witness for C10: with threshold one, a length mismatch in the second,
unused key makes aggregation panic. -/
theorem aggregate_vk_checks_all_witness :
    Verkey.aggregate (ZMod 5) 1
      [(1, ({ X_tilde := 0, Y_tilde := [] } : Verkey (ZMod 5))),
       (2, ({ X_tilde := 0, Y_tilde := [0] } : Verkey (ZMod 5)))] = .panicked :=
  (aggregate_vk_checks_all 1
      [(1, ({ X_tilde := 0, Y_tilde := [] } : Verkey (ZMod 5))),
       (2, ({ X_tilde := 0, Y_tilde := [0] } : Verkey (ZMod 5)))]
      (by decide) (by decide)).mpr
    ⟨(2, ({ X_tilde := 0, Y_tilde := [0] } : Verkey (ZMod 5))), by decide, by decide⟩

/-- Claim C7: SignatureRequestProof::verify, on well-shaped inputs, returns
Ok(false) whenever, for some hidden-message index i, the second response of
the i-th ciphertext proof differs from the i-th response of the commitment
proof; and it returns Ok(true) exactly when all these scalar equalities and
all the Schnorr verification equations hold. -/
theorem srp_verify_spec {Fr G1 G2 : Type} [Field Fr] [AddCommGroup G1] [Module Fr G1]
    [DecidableEq Fr] [DecidableEq G1]
    (H : G1 → G1) (prf : SignatureRequestProof Fr G1) (sig_req : SignatureRequest Fr G1)
    (elgamal_pk : G1) (challenge : Fr) (params : Params G1 G2)
    (hs1 : prf.proof_ciphertexts.length = sig_req.ciphertexts.length)
    (hs2 : prf.proof_commitment.responses.length = prf.proof_ciphertexts.length + 1)
    (hsk : prf.proof_elgamal_sk.responses.length = 1)
    (hkL : sig_req.ciphertexts.length ≤ params.h.length)
    (hcp : ∀ pp ∈ prf.proof_ciphertexts, pp.1.responses.length = 1 ∧
      pp.2.responses.length = 2) :
    ((∃ i < prf.proof_ciphertexts.length,
        (prf.proof_ciphertexts.getD i proof_pair_default.1).2.responses.getD 1 0 ≠
          prf.proof_commitment.responses.getD i 0) →
      SignatureRequestProof.verify H prf sig_req elgamal_pk challenge params
        = .ok false) ∧
    (SignatureRequestProof.verify H prf sig_req elgamal_pk challenge params = .ok true ↔
      (prf.proof_elgamal_sk.responses.getD 0 0 • params.g1 - challenge • elgamal_pk
          = prf.proof_elgamal_sk.random_commitment ∧
       msm (params.h.take sig_req.ciphertexts.length ++ [params.g1])
           prf.proof_commitment.responses
          - challenge • sig_req.commitment = prf.proof_commitment.random_commitment ∧
       ∀ i < prf.proof_ciphertexts.length,
         cipher_ok params.g1 elgamal_pk (H sig_req.commitment) challenge
           (prf.proof_commitment.responses.getD i 0)
           (prf.proof_ciphertexts.getD i proof_pair_default.1)
           (sig_req.ciphertexts.getD i (0, 0)))) := by
  have hblen : (params.h.take sig_req.ciphertexts.length ++ [params.g1]).length
      = prf.proof_commitment.responses.length := by
    simp only [List.length_append, List.length_take, List.length_singleton]
    omega
  have hcommv : ProofSignatureGroup.verify prf.proof_commitment
      (params.h.take sig_req.ciphertexts.length ++ [params.g1]) sig_req.commitment
      challenge = Except.ok (decide (msm (params.h.take sig_req.ciphertexts.length
        ++ [params.g1]) prf.proof_commitment.responses - challenge • sig_req.commitment
        = prf.proof_commitment.random_commitment)) := by
    unfold ProofSignatureGroup.verify
    rw [if_pos hblen]
  have hzlen : (prf.proof_ciphertexts.zip sig_req.ciphertexts).length
      = prf.proof_ciphertexts.length := by
    rw [List.length_zip, hs1, min_self]
  by_cases hesk : prf.proof_elgamal_sk.responses.getD 0 0 • params.g1
      - challenge • elgamal_pk = prf.proof_elgamal_sk.random_commitment
  case neg =>
    have hres : SignatureRequestProof.verify H prf sig_req elgamal_pk challenge params
        = .ok false := by
      simp only [SignatureRequestProof.verify]
      rw [if_pos (And.intro hs1 hs2),
        pok_verify_single prf.proof_elgamal_sk params.g1 elgamal_pk challenge hsk]
      simp only [decide_eq_false hesk, if_bool_false, eq_self_iff_true, if_true]
    rw [hres]
    refine ⟨fun _ => rfl, ?_⟩
    constructor
    · intro hcontra
      exact absurd hcontra (by simp)
    · rintro ⟨h1, -, -⟩
      exact absurd h1 hesk
  case pos =>
    by_cases hcm : msm (params.h.take sig_req.ciphertexts.length ++ [params.g1])
        prf.proof_commitment.responses - challenge • sig_req.commitment
        = prf.proof_commitment.random_commitment
    case neg =>
      have hres : SignatureRequestProof.verify H prf sig_req elgamal_pk challenge params
          = .ok false := by
        simp only [SignatureRequestProof.verify]
        rw [if_pos (And.intro hs1 hs2),
          pok_verify_single prf.proof_elgamal_sk params.g1 elgamal_pk challenge hsk]
        simp only [decide_eq_true hesk, if_bool_true]
        rw [hcommv]
        simp only [decide_eq_false hcm, if_bool_false, eq_self_iff_true, if_true]
      rw [hres]
      refine ⟨fun _ => rfl, ?_⟩
      constructor
      · intro hcontra
        exact absurd hcontra (by simp)
      · rintro ⟨-, h2, -⟩
        exact absurd h2 hcm
    case pos =>
      have hres : SignatureRequestProof.verify H prf sig_req elgamal_pk challenge params
          = verify_ciphertexts params.g1 elgamal_pk (H sig_req.commitment)
            prf.proof_commitment.responses challenge
            (prf.proof_ciphertexts.zip sig_req.ciphertexts) 0 := by
        simp only [SignatureRequestProof.verify]
        rw [if_pos (And.intro hs1 hs2),
          pok_verify_single prf.proof_elgamal_sk params.g1 elgamal_pk challenge hsk]
        simp only [decide_eq_true hesk, if_bool_true]
        rw [hcommv]
        simp only [decide_eq_true hcm, if_bool_true]
      have hloop := verify_ciphertexts_spec params.g1 elgamal_pk (H sig_req.commitment)
        prf.proof_commitment.responses challenge
        (prf.proof_ciphertexts.zip sig_req.ciphertexts) 0
        (fun q hq => hcp q.1 (List.of_mem_zip (show (q.1, q.2) ∈ _ from hq)).1)
        (by rw [hzlen]; omega)
      have hget : ∀ j, j < prf.proof_ciphertexts.length →
          (prf.proof_ciphertexts.zip sig_req.ciphertexts).getD j proof_pair_default
            = (prf.proof_ciphertexts.getD j proof_pair_default.1,
               sig_req.ciphertexts.getD j (0, 0)) :=
        fun j hj => getD_zip_of_lt proof_pair_default.1 (0, 0)
          prf.proof_ciphertexts sig_req.ciphertexts j hj (by omega)
      rw [hres]
      constructor
      · rintro ⟨i, hi, hne⟩
        rcases hloop.1 with htrue | hfalse
        · exfalso
          have hall := hloop.2.mp htrue
          have hcond := (hall i (by rw [hzlen]; exact hi)).1
          rw [hget i hi] at hcond
          simp only [Nat.zero_add] at hcond
          exact hne hcond
        · exact hfalse
      · rw [hloop.2]
        constructor
        · intro hall
          refine ⟨hesk, hcm, fun i hi => ?_⟩
          have hone := hall i (by rw [hzlen]; exact hi)
          rw [hget i hi] at hone
          simpa only [Nat.zero_add] using hone
        · rintro ⟨-, -, hall⟩ j hj
          have hj' : j < prf.proof_ciphertexts.length := by
            rw [hzlen] at hj
            exact hj
          rw [hget j hj']
          simp only [Nat.zero_add]
          exact hall j hj'

/-- Witness for C7: a single all-zero hidden message proof over the field
with five elements, accepted by the verifier. -/
theorem srp_verify_spec_witness :
    SignatureRequestProof.verify (fun x : ZMod 5 => x)
      ({ proof_elgamal_sk := { random_commitment := 0, responses := [0] }
         proof_commitment := { random_commitment := 0, responses := [0, 0] }
         proof_ciphertexts := [({ random_commitment := 0, responses := [0] },
           { random_commitment := 0, responses := [0, 0] })] } :
        SignatureRequestProof (ZMod 5) (ZMod 5))
      { known_messages := [], commitment := 0, ciphertexts := [(0, 0)] }
      0 0 ({ g1 := 0, g2 := 0, h := [0] } : Params (ZMod 5) (ZMod 5)) = .ok true :=
  (srp_verify_spec (fun x : ZMod 5 => x)
      ({ proof_elgamal_sk := { random_commitment := 0, responses := [0] }
         proof_commitment := { random_commitment := 0, responses := [0, 0] }
         proof_ciphertexts := [({ random_commitment := 0, responses := [0] },
           { random_commitment := 0, responses := [0, 0] })] } :
        SignatureRequestProof (ZMod 5) (ZMod 5))
      { known_messages := [], commitment := 0, ciphertexts := [(0, 0)] }
      0 0 ({ g1 := 0, g2 := 0, h := [0] } : Params (ZMod 5) (ZMod 5))
      rfl rfl rfl (by decide) (by decide)).2.mpr
    (by refine ⟨by decide, by decide, ?_⟩
        intro i hi
        have hi' : i < 1 := by simpa using hi
        have hz : i = 0 := by omega
        subst hz
        exact ⟨by decide, by decide, by decide⟩)

/-- Claim C8 counterexample: a proof carrying no ciphertext proofs against a
request carrying one ciphertext makes SignatureRequestProof::verify panic on
the first assert_eq; the result is a panic, not an error value. -/
theorem srp_verify_shape_cex :
    SignatureRequestProof.verify (fun x : ZMod 5 => x)
      ({ proof_elgamal_sk := { random_commitment := 0, responses := [] }
         proof_commitment := { random_commitment := 0, responses := [] }
         proof_ciphertexts := [] } : SignatureRequestProof (ZMod 5) (ZMod 5))
      { known_messages := [], commitment := 0, ciphertexts := [(0, 0)] }
      0 0 ({ g1 := 0, g2 := 0, h := [] } : Params (ZMod 5) (ZMod 5)) = .panicked ∧
    SignatureRequestProof.verify (fun x : ZMod 5 => x)
      ({ proof_elgamal_sk := { random_commitment := 0, responses := [] }
         proof_commitment := { random_commitment := 0, responses := [] }
         proof_ciphertexts := [] } : SignatureRequestProof (ZMod 5) (ZMod 5))
      { known_messages := [], commitment := 0, ciphertexts := [(0, 0)] }
      0 0 ({ g1 := 0, g2 := 0, h := [] } : Params (ZMod 5) (ZMod 5)) ≠ .error := by
  constructor
  · decide
  · decide

/-- Claim C8 amended: when the number of ciphertext proofs differs from the
request's ciphertext count, or the commitment proof's response-vector length
differs from (number of ciphertext proofs) + 1,
SignatureRequestProof::verify panics via assert_eq rather than returning
Ok(false) or an error value. -/
theorem srp_verify_shape_panics {Fr G1 G2 : Type} [Field Fr] [AddCommGroup G1]
    [Module Fr G1] [DecidableEq Fr] [DecidableEq G1]
    (H : G1 → G1) (prf : SignatureRequestProof Fr G1) (sig_req : SignatureRequest Fr G1)
    (elgamal_pk : G1) (challenge : Fr) (params : Params G1 G2)
    (hsh : prf.proof_ciphertexts.length ≠ sig_req.ciphertexts.length ∨
      prf.proof_commitment.responses.length ≠ prf.proof_ciphertexts.length + 1) :
    SignatureRequestProof.verify H prf sig_req elgamal_pk challenge params
      = .panicked := by
  unfold SignatureRequestProof.verify
  rw [if_neg (by tauto)]

/-- Witness for the amended C8: a commitment proof whose response vector has
length two while there are no ciphertext proofs. -/
theorem srp_verify_shape_panics_witness :
    SignatureRequestProof.verify (fun x : ZMod 5 => x)
      ({ proof_elgamal_sk := { random_commitment := 0, responses := [] }
         proof_commitment := { random_commitment := 0, responses := [0, 0] }
         proof_ciphertexts := [] } : SignatureRequestProof (ZMod 5) (ZMod 5))
      { known_messages := [], commitment := 0, ciphertexts := [] }
      0 0 ({ g1 := 0, g2 := 0, h := [] } : Params (ZMod 5) (ZMod 5)) = .panicked :=
  srp_verify_shape_panics (fun x : ZMod 5 => x)
    ({ proof_elgamal_sk := { random_commitment := 0, responses := [] }
       proof_commitment := { random_commitment := 0, responses := [0, 0] }
       proof_ciphertexts := [] } : SignatureRequestProof (ZMod 5) (ZMod 5))
    { known_messages := [], commitment := 0, ciphertexts := [] }
    0 0 ({ g1 := 0, g2 := 0, h := [] } : Params (ZMod 5) (ZMod 5)) (by decide)

end Coconut
